import Mathlib

set_option maxRecDepth 8000

/-!
Shallow embedding of the recipe-normalization and rendering logic of
`src/util/gif.ts` and `src/util/gif.mjs`.

Modelling conventions:
* JS numbers are `Rat` (crop rectangle, scale, offsets) or `Int`/`Nat`
  (frame indices, counts); JS `%` on integers is `Int.tmod`
  (sign of the dividend), matching `(...) % frameCount` in the source.
* An optional record field (a key that may be absent) is an `Option`;
  a JS object spread `{...a, ...b}` picks `b`'s field when present, hence
  `b.f <|> a.f` on `Option` fields.
* `ManipulateOption` (`MOpt` below) is recursive: `useFrames` holds bare
  numbers or nested options (`Int ⊕ MOpt`), `blitImages` holds entries
  `posX × posY × option` — the source destructures `posX`/`posY` with
  default `0`, so they are plain `Rat` here.  The display-only `name`
  field is stripped by `fixOption` before every use in the source and is
  omitted from the model.
-/

inductive MOpt : Type where
  | mk (x y w h : Option Rat) (scale : Option Rat) (frame : Option Int)
       (useFrames : Option (List (Int ⊕ MOpt)))
       (blitImages : Option (List (Rat × Rat × MOpt)))

namespace MOpt

def x : MOpt → Option Rat | .mk v _ _ _ _ _ _ _ => v
def y : MOpt → Option Rat | .mk _ v _ _ _ _ _ _ => v
def w : MOpt → Option Rat | .mk _ _ v _ _ _ _ _ => v
def h : MOpt → Option Rat | .mk _ _ _ v _ _ _ _ => v
def scale : MOpt → Option Rat | .mk _ _ _ _ v _ _ _ => v
def frame : MOpt → Option Int | .mk _ _ _ _ _ v _ _ => v
def useFrames : MOpt → Option (List (Int ⊕ MOpt)) | .mk _ _ _ _ _ _ v _ => v
def blitImages : MOpt → Option (List (Rat × Rat × MOpt)) | .mk _ _ _ _ _ _ _ v => v

end MOpt

mutual

/-- Structural size of an option tree (scalar fields do not count), used as
the termination measure of the normalizer. -/
def mSize : MOpt → Nat
  | .mk _ _ _ _ _ _ none none => 1
  | .mk _ _ _ _ _ _ none (some lb) => 1 + biListSize lb
  | .mk _ _ _ _ _ _ (some lu) none => 1 + ufListSize lu
  | .mk _ _ _ _ _ _ (some lu) (some lb) => 1 + ufListSize lu + biListSize lb

def ufListSize : List (Int ⊕ MOpt) → Nat
  | [] => 0
  | .inl _ :: r => 1 + ufListSize r
  | .inr o :: r => 1 + mSize o + ufListSize r

def biListSize : List (Rat × Rat × MOpt) → Nat
  | [] => 0
  | (_, _, o) :: r => 1 + mSize o + biListSize r

end

/-- `RegularManipulateOption & {posX, posY}`: one fully resolved element. -/
structure RegularOpt where
  x : Rat
  y : Rat
  w : Rat
  h : Rat
  scale : Rat
  frame : Int
  posX : Rat
  posY : Rat
deriving DecidableEq

/-- JS `biOption.scale || 1` — `0` (falsy) and an absent key both give `1`. -/
def jsOr1 : Option Rat → Rat
  | some s => if s = 0 then 1 else s
  | none => 1

/-- `useFrames && useFrames[index % useFrames.length]`: the lookup on an
empty array indexes at `NaN` and yields `undefined`, here `List.get?` on
`[]` yields `none`. -/
def curUF (idx : Nat) : Option (List (Int ⊕ MOpt)) → Option (Int ⊕ MOpt)
  | none => none
  | some l => l.get? (idx % l.length)

/-- `typeof currentUseFrame === "object" ? currentUseFrame : {}` refined to
the bundle when the current entry is an override bundle. -/
def bundleOf : Option (Int ⊕ MOpt) → Option MOpt
  | some (Sum.inr b) => some b
  | _ => none

/-- The `fixedFrame` computation of `regularizeOneOption` (both variants):
current entry if a bare number, else the bundle's own `frame`, else the
recipe's `frame`, else the output index; finally JS `% frameCount`. -/
def fixedFrame (fc idx : Nat) (cur : Option (Int ⊕ MOpt)) (fr : Option Int) : Int :=
  (match cur with
    | some (Sum.inl n) => n
    | some (Sum.inr b) =>
      match b.frame with
      | some n => n
      | none => fr.getD (idx : Int)
    | none => fr.getD (idx : Int)).tmod (fc : Int)

/-- The `mainOption` spread
`{posX:0, posY:0, x:0, y:0, w:defW, h:defH, scale:1, ...fixOption(opt),
...fixOption(currentUseFrame-as-object), frame: fixedFrame}`; `defW`/`defH`
are `1`/`1` in gif.ts and `0`/`0` in gif.mjs. -/
def mainOf (defW defH : Rat) (x y w h sc : Option Rat) (ff : Int) (curB : Option MOpt) :
    RegularOpt :=
  { x := ((curB.bind MOpt.x) <|> x).getD 0
    y := ((curB.bind MOpt.y) <|> y).getD 0
    w := ((curB.bind MOpt.w) <|> w).getD defW
    h := ((curB.bind MOpt.h) <|> h).getD defH
    scale := ((curB.bind MOpt.scale) <|> sc).getD 1
    frame := ff
    posX := 0
    posY := 0 }

/-- `[...(opt.blitImages || []), ...(currentUseFrame.blitImages || [])]`. -/
def combinedBlits (idx : Nat) (uf : Option (List (Int ⊕ MOpt)))
    (bl : Option (List (Rat × Rat × MOpt))) : List (Rat × Rat × MOpt) :=
  bl.getD [] ++ ((bundleOf (curUF idx uf)).bind MOpt.blitImages).getD []

/-- gif.ts recursion argument
`{...mainOption, ...biOption, scale: mainOption.scale * (biOption.scale || 1)}`
(`mainOption` has every scalar key present, and no `useFrames`/`blitImages`). -/
def mergeBi (m : RegularOpt) (bi : MOpt) : MOpt :=
  .mk (bi.x <|> some m.x) (bi.y <|> some m.y) (bi.w <|> some m.w) (bi.h <|> some m.h)
      (some (m.scale * jsOr1 bi.scale)) (bi.frame <|> some m.frame)
      bi.useFrames bi.blitImages

/-- gif.mjs recursion argument `{...mainOption, ...biOption}` (no scale
multiplication before recursing). -/
def mergeBiMjs (m : RegularOpt) (bi : MOpt) : MOpt :=
  .mk (bi.x <|> some m.x) (bi.y <|> some m.y) (bi.w <|> some m.w) (bi.h <|> some m.h)
      (bi.scale <|> some m.scale) (bi.frame <|> some m.frame)
      bi.useFrames bi.blitImages

/-- The resolved `mainOption` of gif.ts (defaults `w=1, h=1`). -/
def mainTs (fc idx : Nat) (x y w h sc : Option Rat) (fr : Option Int)
    (uf : Option (List (Int ⊕ MOpt))) : RegularOpt :=
  mainOf 1 1 x y w h sc (fixedFrame fc idx (curUF idx uf) fr) (bundleOf (curUF idx uf))

/-- The resolved `mainOption` of gif.mjs (defaults `w=0, h=0`). -/
def mainMjs (fc idx : Nat) (x y w h sc : Option Rat) (fr : Option Int)
    (uf : Option (List (Int ⊕ MOpt))) : RegularOpt :=
  mainOf 0 0 x y w h sc (fixedFrame fc idx (curUF idx uf) fr) (bundleOf (curUF idx uf))

lemma mSize_mergeBi (m : RegularOpt) (bi : MOpt) : mSize (mergeBi m bi) = mSize bi := by
  cases bi with
  | mk bx by' bw bh bsc bfr buf bbl => cases buf <;> cases bbl <;> rfl

lemma mSize_mergeBiMjs (m : RegularOpt) (bi : MOpt) : mSize (mergeBiMjs m bi) = mSize bi := by
  cases bi with
  | mk bx by' bw bh bsc bfr buf bbl => cases buf <;> cases bbl <;> rfl

lemma mSize_le_of_mem_bi {p : Rat × Rat × MOpt} {l : List (Rat × Rat × MOpt)} (hm : p ∈ l) :
    mSize p.2.2 ≤ biListSize l := by
  induction l with
  | nil => cases hm
  | cons q r ih =>
    obtain ⟨a, b, o⟩ := q
    rcases List.mem_cons.1 hm with rfl | hm'
    · simp only [biListSize]
      omega
    · have := ih hm'
      simp only [biListSize]
      omega

lemma mSize_le_of_inr_mem {b : MOpt} {l : List (Int ⊕ MOpt)} (hm : Sum.inr b ∈ l) :
    mSize b ≤ ufListSize l := by
  induction l with
  | nil => cases hm
  | cons q r ih =>
    rcases List.mem_cons.1 hm with hq | hm'
    · cases hq
      simp only [ufListSize]
      omega
    · have := ih hm'
      cases q with
      | inl n => simp only [ufListSize]; omega
      | inr o => simp only [ufListSize]; omega

lemma bundleOf_curUF_mem {idx : Nat} {uf : Option (List (Int ⊕ MOpt))} {b : MOpt}
    (hb : bundleOf (curUF idx uf) = some b) :
    ∃ l, uf = some l ∧ Sum.inr b ∈ l := by
  cases uf with
  | none => simp [curUF, bundleOf] at hb
  | some l =>
    refine ⟨l, rfl, ?_⟩
    rcases hg : l.get? (idx % l.length) with _ | e
    · rw [curUF, hg] at hb; simp [bundleOf] at hb
    · rw [curUF, hg] at hb
      cases e with
      | inl n => simp [bundleOf] at hb
      | inr o =>
        simp only [bundleOf, Option.some.injEq] at hb
        subst hb
        exact List.get?_mem hg

lemma mSize_blit_lt {b : MOpt} {lb : List (Rat × Rat × MOpt)} (hbl : b.blitImages = some lb) :
    biListSize lb < mSize b := by
  cases b with
  | mk bx by' bw bh bsc bfr buf bbl =>
    simp only [MOpt.blitImages] at hbl
    subst hbl
    cases buf <;> simp only [mSize] <;> omega

lemma mSize_lt_of_mem_combined {idx : Nat} {uf : Option (List (Int ⊕ MOpt))}
    {bl : Option (List (Rat × Rat × MOpt))} {p : Rat × Rat × MOpt}
    (hm : p ∈ combinedBlits idx uf bl)
    (x y w h : Option Rat) (sc : Option Rat) (fr : Option Int) :
    mSize p.2.2 < mSize (.mk x y w h sc fr uf bl) := by
  rcases List.mem_append.1 hm with h1 | h2
  · cases bl with
    | none => simp at h1
    | some l =>
      simp only [Option.getD_some] at h1
      have := mSize_le_of_mem_bi h1
      cases uf <;> simp only [mSize] <;> omega
  · rcases hcb : bundleOf (curUF idx uf) with _ | b
    · rw [hcb] at h2; simp at h2
    · rw [hcb] at h2
      have h2' : p ∈ (MOpt.blitImages b).getD [] := h2
      obtain ⟨l, rfl, hmem⟩ := bundleOf_curUF_mem hcb
      have hble := mSize_le_of_inr_mem hmem
      cases hbl : b.blitImages with
      | none => rw [hbl] at h2'; simp at h2'
      | some lb =>
        rw [hbl] at h2'
        simp only [Option.getD_some] at h2'
        have h3 := mSize_le_of_mem_bi h2'
        have h4 := mSize_blit_lt hbl
        cases bl <;> simp only [mSize] <;> omega

/-- gif.ts `regularizeOneOption` for a fixed output `index`. -/
def regOne (fc idx : Nat) (o : MOpt) : List RegularOpt :=
  match o with
  | .mk x y w h sc fr uf bl =>
    mainTs fc idx x y w h sc fr uf ::
    (combinedBlits idx uf bl).attach.flatMap (fun t =>
      (regOne fc idx (mergeBi (mainTs fc idx x y w h sc fr uf) t.val.2.2)).map
        (fun e => { e with
          posX := t.val.1 * (mainTs fc idx x y w h sc fr uf).scale + e.posX,
          posY := t.val.2.1 * (mainTs fc idx x y w h sc fr uf).scale + e.posY }))
termination_by mSize o
decreasing_by
  rw [mSize_mergeBi]
  exact mSize_lt_of_mem_combined t.property _ _ _ _ _ _

/-- gif.mjs `regularizeOneOption` for a fixed output `index`: no scale
multiplication on the recursion argument, and the overlay offset is scaled
by each inner element's own scale (`posX * bio.scale + posXInner`). -/
def regOneMjs (fc idx : Nat) (o : MOpt) : List RegularOpt :=
  match o with
  | .mk x y w h sc fr uf bl =>
    mainMjs fc idx x y w h sc fr uf ::
    (combinedBlits idx uf bl).attach.flatMap (fun t =>
      (regOneMjs fc idx (mergeBiMjs (mainMjs fc idx x y w h sc fr uf) t.val.2.2)).map
        (fun e => { e with
          posX := t.val.1 * e.scale + e.posX,
          posY := t.val.2.1 * e.scale + e.posY }))
termination_by mSize o
decreasing_by
  rw [mSize_mergeBiMjs]
  exact mSize_lt_of_mem_combined t.property _ _ _ _ _ _

lemma flatMap_attach {α β : Type} (l : List α) (f : α → List β) :
    l.attach.flatMap (fun t => f t.val) = l.flatMap f := by
  induction l with
  | nil => rfl
  | cons a r ih =>
    rw [List.attach_cons, List.flatMap_cons, List.flatMap_cons, List.flatMap_map]
    exact congrArg (f a ++ .) ih

/-- Unfolding equation for `regOne` without the `attach` bookkeeping. -/
lemma regOne_eq (fc idx : Nat) (x y w h sc : Option Rat) (fr : Option Int)
    (uf : Option (List (Int ⊕ MOpt))) (bl : Option (List (Rat × Rat × MOpt))) :
    regOne fc idx (.mk x y w h sc fr uf bl) =
      mainTs fc idx x y w h sc fr uf ::
      (combinedBlits idx uf bl).flatMap (fun t =>
        (regOne fc idx (mergeBi (mainTs fc idx x y w h sc fr uf) t.2.2)).map
          (fun e => { e with
            posX := t.1 * (mainTs fc idx x y w h sc fr uf).scale + e.posX,
            posY := t.2.1 * (mainTs fc idx x y w h sc fr uf).scale + e.posY })) := by
  rw [regOne.eq_1]
  exact congrArg _ (flatMap_attach (combinedBlits idx uf bl)
    (fun p => (regOne fc idx (mergeBi (mainTs fc idx x y w h sc fr uf) p.2.2)).map
      (fun e => { e with
        posX := p.1 * (mainTs fc idx x y w h sc fr uf).scale + e.posX,
        posY := p.2.1 * (mainTs fc idx x y w h sc fr uf).scale + e.posY })))

/-- Unfolding equation for `regOneMjs` without the `attach` bookkeeping. -/
lemma regOneMjs_eq (fc idx : Nat) (x y w h sc : Option Rat) (fr : Option Int)
    (uf : Option (List (Int ⊕ MOpt))) (bl : Option (List (Rat × Rat × MOpt))) :
    regOneMjs fc idx (.mk x y w h sc fr uf bl) =
      mainMjs fc idx x y w h sc fr uf ::
      (combinedBlits idx uf bl).flatMap (fun t =>
        (regOneMjs fc idx (mergeBiMjs (mainMjs fc idx x y w h sc fr uf) t.2.2)).map
          (fun e => { e with
            posX := t.1 * e.scale + e.posX,
            posY := t.2.1 * e.scale + e.posY })) := by
  rw [regOneMjs.eq_1]
  exact congrArg _ (flatMap_attach (combinedBlits idx uf bl)
    (fun p => (regOneMjs fc idx (mergeBiMjs (mainMjs fc idx x y w h sc fr uf) p.2.2)).map
      (fun e => { e with
        posX := p.1 * e.scale + e.posX,
        posY := p.2.1 * e.scale + e.posY })))

/-- `Math.max(frameCount, option.useFrames?.length || 0,
...(option.blitImages || []).map(bi => bi.useFrames?.length || 0))`
(identical in both variants). -/
def outputFrameCount (o : MOpt) (fc : Nat) : Nat :=
  ((o.blitImages.getD []).map (fun b => (b.2.2.useFrames.getD []).length)).foldl max
    (max fc (o.useFrames.getD []).length)

/-- gif.ts `regularizeOption`: the per-frame plans, one per output index. -/
def regularizeOption (o : MOpt) (fc : Nat) : List (List RegularOpt) :=
  (List.range (outputFrameCount o fc)).map (fun idx => regOne fc idx o)

/-- gif.mjs `regularizeOption`. -/
def regularizeOptionMjs (o : MOpt) (fc : Nat) : List (List RegularOpt) :=
  (List.range (outputFrameCount o fc)).map (fun idx => regOneMjs fc idx o)

/-- Fuel-indexed copy of `regOne`, definitionally computable; it agrees with
`regOne` whenever the fuel dominates the recipe size (`regOneF_eq`). -/
def regOneF : Nat → Nat → Nat → MOpt → List RegularOpt
  | 0, _, _, _ => []
  | fuel + 1, fc, idx, .mk x y w h sc fr uf bl =>
    mainTs fc idx x y w h sc fr uf ::
    (combinedBlits idx uf bl).flatMap (fun t =>
      (regOneF fuel fc idx (mergeBi (mainTs fc idx x y w h sc fr uf) t.2.2)).map
        (fun e => { e with
          posX := t.1 * (mainTs fc idx x y w h sc fr uf).scale + e.posX,
          posY := t.2.1 * (mainTs fc idx x y w h sc fr uf).scale + e.posY }))

/-- Fuel-indexed copy of `regOneMjs`. -/
def regOneMjsF : Nat → Nat → Nat → MOpt → List RegularOpt
  | 0, _, _, _ => []
  | fuel + 1, fc, idx, .mk x y w h sc fr uf bl =>
    mainMjs fc idx x y w h sc fr uf ::
    (combinedBlits idx uf bl).flatMap (fun t =>
      (regOneMjsF fuel fc idx (mergeBiMjs (mainMjs fc idx x y w h sc fr uf) t.2.2)).map
        (fun e => { e with
          posX := t.1 * e.scale + e.posX,
          posY := t.2.1 * e.scale + e.posY }))

lemma flatMap_congr_mem {α β : Type} {l : List α} {f g : α → List β}
    (hfg : ∀ t ∈ l, f t = g t) : l.flatMap f = l.flatMap g := by
  induction l with
  | nil => rfl
  | cons q r ih =>
    rw [List.flatMap_cons, List.flatMap_cons, hfg q (List.mem_cons_self q r),
      ih (fun t ht => hfg t (List.mem_cons_of_mem q ht))]

lemma regOneF_eq : ∀ (fuel fc idx : Nat) (o : MOpt), mSize o ≤ fuel →
    regOneF fuel fc idx o = regOne fc idx o := by
  intro fuel
  induction fuel with
  | zero =>
    intro fc idx o hle
    cases o with
    | mk x y w h sc fr uf bl => cases uf <;> cases bl <;> simp [mSize] at hle
  | succ n ih =>
    intro fc idx o hle
    cases o with
    | mk x y w h sc fr uf bl =>
      rw [regOne_eq, regOneF]
      refine congrArg _ (flatMap_congr_mem (fun t ht => ?_))
      rw [ih fc idx _ ?_]
      rw [mSize_mergeBi]
      have := mSize_lt_of_mem_combined ht x y w h sc fr
      omega

lemma regOneMjsF_eq : ∀ (fuel fc idx : Nat) (o : MOpt), mSize o ≤ fuel →
    regOneMjsF fuel fc idx o = regOneMjs fc idx o := by
  intro fuel
  induction fuel with
  | zero =>
    intro fc idx o hle
    cases o with
    | mk x y w h sc fr uf bl => cases uf <;> cases bl <;> simp [mSize] at hle
  | succ n ih =>
    intro fc idx o hle
    cases o with
    | mk x y w h sc fr uf bl =>
      rw [regOneMjs_eq, regOneMjsF]
      refine congrArg _ (flatMap_congr_mem (fun t ht => ?_))
      rw [ih fc idx _ ?_]
      rw [mSize_mergeBiMjs]
      have := mSize_lt_of_mem_combined ht x y w h sc fr
      omega

lemma regularizeOption_eqF (fuel : Nat) (o : MOpt) (fc : Nat) (hle : mSize o ≤ fuel) :
    regularizeOption o fc =
      (List.range (outputFrameCount o fc)).map (fun idx => regOneF fuel fc idx o) := by
  exact (List.map_congr_left (fun idx _ => (regOneF_eq fuel fc idx o hle).symm))

lemma regularizeOptionMjs_eqF (fuel : Nat) (o : MOpt) (fc : Nat) (hle : mSize o ≤ fuel) :
    regularizeOptionMjs o fc =
      (List.range (outputFrameCount o fc)).map (fun idx => regOneMjsF fuel fc idx o) := by
  exact (List.map_congr_left (fun idx _ => (regOneMjsF_eq fuel fc idx o hle).symm))

mutual

/-- Every declared `frame` field and bare `useFrames` number in the recipe
tree is non-negative. -/
def nnFrames : MOpt → Bool
  | .mk _ _ _ _ _ fr uf bl =>
    (match fr with | none => true | some n => decide (0 ≤ n))
    && (match uf with | none => true | some l => nnUFList l)
    && (match bl with | none => true | some l => nnBIList l)

def nnUFList : List (Int ⊕ MOpt) → Bool
  | [] => true
  | .inl n :: r => decide (0 ≤ n) && nnUFList r
  | .inr o :: r => nnFrames o && nnUFList r

def nnBIList : List (Rat × Rat × MOpt) → Bool
  | [] => true
  | (_, _, o) :: r => nnFrames o && nnBIList r

end

mutual

/-- Every `useFrames` length in the recipe tree is empty or divides `P`. -/
def ufDvd (P : Nat) : MOpt → Bool
  | .mk _ _ _ _ _ _ uf bl =>
    (match uf with
      | none => true
      | some l => (l.isEmpty || decide (l.length ∣ P)) && ufDvdUFList P l)
    && (match bl with | none => true | some l => ufDvdBIList P l)

def ufDvdUFList (P : Nat) : List (Int ⊕ MOpt) → Bool
  | [] => true
  | .inl _ :: r => ufDvdUFList P r
  | .inr o :: r => ufDvd P o && ufDvdUFList P r

def ufDvdBIList (P : Nat) : List (Rat × Rat × MOpt) → Bool
  | [] => true
  | (_, _, o) :: r => ufDvd P o && ufDvdBIList P r

end

mutual

/-- No `scale` field is declared strictly below the root: every override
bundle and every overlay entry in the tree has an absent `scale`. -/
def subNoScale : MOpt → Bool
  | .mk _ _ _ _ _ _ uf bl =>
    (match uf with | none => true | some l => noScaleUFList l)
    && (match bl with | none => true | some l => noScaleBIList l)

def noScaleUFList : List (Int ⊕ MOpt) → Bool
  | [] => true
  | .inl _ :: r => noScaleUFList r
  | .inr o :: r => (MOpt.scale o).isNone && subNoScale o && noScaleUFList r

def noScaleBIList : List (Rat × Rat × MOpt) → Bool
  | [] => true
  | (_, _, o) :: r => (MOpt.scale o).isNone && subNoScale o && noScaleBIList r

end

/-- The scale and absolute position of a resolved element. -/
def scalePos (e : RegularOpt) : Rat × Rat × Rat := (e.scale, e.posX, e.posY)

/-- Raster-primitive calls issued while rendering one element. -/
inductive ImageOp : Type where
  | crop (x y w h : Rat)
  | scaleNN (s : Rat)
deriving DecidableEq

/-- gif.ts `manipulate`/`manipulateOneFrame` (lines 133-149): crop only when
`w > 0 && h > 0`, then nearest-neighbor scale when `scale !== 1`. -/
def renderOpsTs (x y w h sc : Rat) : List ImageOp :=
  (if 0 < w ∧ 0 < h then [ImageOp.crop x y w h] else [])
    ++ (if sc ≠ 1 then [ImageOp.scaleNN sc] else [])

/-- gif.mjs `manipulate`/`manipulateOneFrame` (lines 146-156), identical
gating to the gif.ts compositor. -/
def renderOpsMjsCompositor (x y w h sc : Rat) : List ImageOp :=
  (if 0 < w ∧ 0 < h then [ImageOp.crop x y w h] else [])
    ++ (if sc ≠ 1 then [ImageOp.scaleNN sc] else [])

/-- gif.ts `manipulateFrame`/`manipulateOneFrame` (lines 209-242), per
element: gated crop, then scale by `scale ?? 1` when it differs from 1. -/
def renderOpsTsFrame (x y w h : Rat) (sc : Option Rat) : List ImageOp :=
  (if 0 < w ∧ 0 < h then [ImageOp.crop x y w h] else [])
    ++ (if sc.getD 1 ≠ 1 then [ImageOp.scaleNN (sc.getD 1)] else [])

/-- gif.mjs `manipulateFrame` (lines 206-222): unconditional crop, then —
when `scale` (default 1) differs from 1 — a nearest-neighbor scale by the
literal factor 5. -/
def renderOpsMjsFrame (x y w h sc : Rat) : List ImageOp :=
  [ImageOp.crop x y w h] ++ (if sc ≠ 1 then [ImageOp.scaleNN 5] else [])

/-- Whether a render trace contains a crop call. -/
def hasCrop (l : List ImageOp) : Bool :=
  l.any (fun op => match op with | ImageOp.crop _ _ _ _ => true | _ => false)

lemma foldl_max_eq (l : List Nat) (a : Nat) : l.foldl max a = max a (l.foldr max 0) := by
  induction l generalizing a with
  | nil =>
    rw [List.foldl_nil, List.foldr_nil]
    omega
  | cons q r ih =>
    rw [List.foldl_cons, List.foldr_cons, ih]
    omega

/-- C1: the output plan has length
`max(frameCount, |recipe.useFrames|, max over direct blitImages entries of
|useFrames|)`; only the root and one level of `blitImages` enter the
maximum, so deeper `useFrames` sequences cannot extend the plan. -/
theorem output_length_rule (o : MOpt) (fc : Nat) :
    (regularizeOption o fc).length =
      max fc (max ((MOpt.useFrames o).getD []).length
        ((((MOpt.blitImages o).getD []).map
          (fun b => ((MOpt.useFrames b.2.2).getD []).length)).foldr max 0)) := by
  rw [regularizeOption, List.length_map, List.length_range, outputFrameCount, foldl_max_eq]
  omega

/-- C2: the main element's source frame follows the priority "bare number
in the current useFrames entry, else the bundle's own frame, else the
recipe's frame, else the output index", reduced by JS `%` by frameCount. -/
theorem main_frame_priority (o : MOpt) (fc idx : Nat) :
    ((regOne fc idx o).head?).map RegularOpt.frame =
      some (Int.tmod
        (match ((MOpt.useFrames o).getD []).get?
            (idx % ((MOpt.useFrames o).getD []).length) with
          | some (Sum.inl n) => n
          | some (Sum.inr b) => (MOpt.frame b).getD ((MOpt.frame o).getD (idx : Int))
          | none => (MOpt.frame o).getD (idx : Int)) (fc : Int)) := by
  cases o with
  | mk x y w h sc fr uf bl =>
    rw [regOne_eq]
    simp only [MOpt.useFrames, MOpt.frame]
    refine congrArg some ?_
    show fixedFrame fc idx (curUF idx uf) fr = _
    rw [fixedFrame.eq_def]
    cases uf with
    | none => rfl
    | some l =>
      rw [curUF]
      simp only [Option.getD_some]
      rcases hg : l.get? (idx % l.length) with _ | e
      · rfl
      · cases e with
        | inl n => rfl
        | inr b =>
          cases b with
          | mk fx fy fw fh fsc ffr fuf fbl => cases ffr <;> rfl

/-- C10: a present-but-empty `useFrames` behaves exactly as an absent one:
it contributes length 0 to the output-frame maximum and the per-frame
lookup finds no override, so the whole normalization result coincides. -/
theorem empty_useFrames_inert (x y w h sc : Option Rat) (fr : Option Int)
    (bl : Option (List (Rat × Rat × MOpt))) (fc : Nat) :
    regularizeOption (.mk x y w h sc fr (some []) bl) fc
      = regularizeOption (.mk x y w h sc fr none bl) fc := by
  have hcur : ∀ idx : Nat, curUF idx (some ([] : List (Int ⊕ MOpt))) = curUF idx none := by
    intro idx
    simp [curUF]
  rw [regularizeOption, regularizeOption]
  have hcnt : outputFrameCount (.mk x y w h sc fr (some []) bl) fc
      = outputFrameCount (.mk x y w h sc fr none bl) fc := by
    simp [outputFrameCount, MOpt.useFrames, MOpt.blitImages]
  rw [hcnt]
  refine List.map_congr_left (fun idx _ => ?_)
  rw [regOne_eq, regOne_eq]
  have h1 : mainTs fc idx x y w h sc fr (some []) = mainTs fc idx x y w h sc fr none := by
    rw [mainTs, mainTs, hcur]
  have h2 : combinedBlits idx (some []) bl = combinedBlits idx none bl := by
    rw [combinedBlits, combinedBlits, hcur]
  rw [h1, h2]

/-- C8 (amended): for a recipe with no `useFrames`, no `blitImages` and no
declared `frame`, the plan has exactly `frameCount` frames and output frame
`i` consists of the single main element selecting source frame `i`. -/
theorem plain_recipe_frames (x y w h sc : Option Rat) (fc i : Nat) :
    (regularizeOption (.mk x y w h sc none none none) fc).length = fc ∧
    ((regularizeOption (.mk x y w h sc none none none) fc).get? i).map
        (List.map RegularOpt.frame) =
      (if i < fc then some [(i : Int)] else none) := by
  have hcnt : outputFrameCount (.mk x y w h sc none none none) fc = fc := by
    simp [outputFrameCount, MOpt.useFrames, MOpt.blitImages]
  constructor
  · rw [regularizeOption, List.length_map, List.length_range, hcnt]
  · rw [regularizeOption, hcnt]
    by_cases hlt : i < fc
    · rw [if_pos hlt, List.get?_map, List.get?_range hlt]
      refine congrArg some ?_
      show List.map RegularOpt.frame (regOne fc i (.mk x y w h sc none none none)) = [(i : Int)]
      rw [regOne_eq]
      show [(mainTs fc i x y w h sc none none).frame] = [(i : Int)]
      refine congrArg (fun z => [z]) ?_
      show ((i : Int)).tmod (fc : Int) = (i : Int)
      exact Int.tmod_eq_of_lt (Int.natCast_nonneg i) (by exact_mod_cast hlt)
    · rw [if_neg hlt, List.get?_map]
      have hnone : (List.range fc).get? i = none := by
        rw [List.get?_eq_none]
        rw [List.length_range]
        omega
      rw [hnone]
      rfl

lemma regOne_single_blit (fc idx : Nat) (x y w h sc : Option Rat) (fr : Option Int)
    (px py : Rat) (c : MOpt) :
    regOne fc idx (.mk x y w h sc fr none (some [(px, py, c)])) =
      mainTs fc idx x y w h sc fr none ::
      (regOne fc idx (mergeBi (mainTs fc idx x y w h sc fr none) c)).map
        (fun e => { e with
          posX := px * (mainTs fc idx x y w h sc fr none).scale + e.posX,
          posY := py * (mainTs fc idx x y w h sc fr none).scale + e.posY }) := by
  rw [regOne_eq,
    show combinedBlits idx none (some [(px, py, c)]) = [(px, py, c)] from rfl,
    List.flatMap_cons, List.flatMap_nil, List.append_nil]

/-- C5: for a root at its absolute position `(rx, ry) = (0, 0)` with
resolved scale `s1` and one overlay child declaring relative offset
`(px, py)`, every resolved child element sits at
`(rx + px*s1, ry + py*s1)` plus its own inner resolved offset — the offset
is scaled by the parent's scale `s1`, not the child's. -/
theorem position_law (fc idx : Nat) (x0 y0 w0 h0 : Option Rat) (s1 : Rat)
    (fr : Option Int) (px py : Rat) (c : MOpt) (j : Nat) :
    (regOne fc idx (.mk x0 y0 w0 h0 (some s1) fr none (some [(px, py, c)]))).get? 0 =
      some (RegularOpt.mk (x0.getD 0) (y0.getD 0) (w0.getD 1) (h0.getD 1) s1
        (Int.tmod (fr.getD (idx : Int)) (fc : Int)) 0 0) ∧
    (regOne fc idx (.mk x0 y0 w0 h0 (some s1) fr none (some [(px, py, c)]))).get? (j + 1) =
      ((regOne fc idx (mergeBi
          (RegularOpt.mk (x0.getD 0) (y0.getD 0) (w0.getD 1) (h0.getD 1) s1
            (Int.tmod (fr.getD (idx : Int)) (fc : Int)) 0 0) c)).get? j).map
        (fun e => { e with posX := 0 + px * s1 + e.posX, posY := 0 + py * s1 + e.posY }) := by
  have hm : mainTs fc idx x0 y0 w0 h0 (some s1) fr none =
      RegularOpt.mk (x0.getD 0) (y0.getD 0) (w0.getD 1) (h0.getD 1) s1
        (Int.tmod (fr.getD (idx : Int)) (fc : Int)) 0 0 := rfl
  rw [regOne_single_blit, hm]
  constructor
  · rfl
  · rw [List.get?_cons_succ, List.get?_map]
    simp only [zero_add]

/-- C4 (amended): with root scale `s1` and a child overlay declaring a
nonzero scale `s2`, the child's resolved scale is `s1 * s2`; a declared
child scale of `0` is falsy for `biOption.scale || 1` and acts as absent. -/
theorem scale_law_amended (s1 s2 : Rat) (hs2 : s2 ≠ 0) :
    ((regOne 1 0 (.mk none none none none (some s1) none none
        (some [(0, 0, .mk none none none none (some s2) none none none)]))).get? 1).map
      RegularOpt.scale = some (s1 * s2) := by
  rw [← regOneF_eq 3 1 0 (MOpt.mk none none none none (some s1) none none
      (some [(0, 0, MOpt.mk none none none none (some s2) none none none)]))
      (by norm_num [mSize, biListSize])]
  show some (s1 * (if s2 = 0 then 1 else s2)) = some (s1 * s2)
  rw [if_neg hs2]

theorem scale_law_amended_witness :
    ((2 : Rat) ≠ 0) ∧
    ((regOne 1 0 (.mk none none none none (some 3) none none
        (some [(0, 0, .mk none none none none (some 2) none none none)]))).get? 1).map
      RegularOpt.scale = some (3 * 2) :=
  ⟨by norm_num, scale_law_amended 3 2 (by norm_num)⟩

/-- C4 (counterexample): a child overlay declaring scale `0` under a root of
scale `2` resolves to scale `2`, not `2 * 0 = 0`. -/
theorem scale_law_counterexample :
    ((regOne 1 0 (.mk none none none none (some 2) none none
        (some [(0, 0, .mk none none none none (some 0) none none none)]))).get? 1).map
      RegularOpt.scale = some 2 ∧ ¬ ((2 : Rat) = 2 * 0) := by
  constructor
  · rw [← regOneF_eq 3 1 0 (MOpt.mk none none none none (some 2) none none
        (some [(0, 0, MOpt.mk none none none none (some 0) none none none)]))
        (by norm_num [mSize, biListSize])]
    show some ((2 : Rat) * (if (0 : Rat) = 0 then 1 else 0)) = some 2
    norm_num
  · norm_num

/-- C9 (amended): the compositors of both variants and the gif.ts
single-frame path crop exactly when `w > 0` and `h > 0`, while the gif.mjs
single-frame path crops unconditionally. -/
theorem crop_gate_amended :
    (∀ x y w h sc : Rat, hasCrop (renderOpsTs x y w h sc) = true ↔ 0 < w ∧ 0 < h) ∧
    (∀ x y w h sc : Rat,
      hasCrop (renderOpsMjsCompositor x y w h sc) = true ↔ 0 < w ∧ 0 < h) ∧
    (∀ (x y w h : Rat) (sc : Option Rat),
      hasCrop (renderOpsTsFrame x y w h sc) = true ↔ 0 < w ∧ 0 < h) ∧
    (∀ x y w h sc : Rat, hasCrop (renderOpsMjsFrame x y w h sc) = true) := by
  refine ⟨fun x y w h sc => ?_, fun x y w h sc => ?_, fun x y w h sc => ?_,
    fun x y w h sc => ?_⟩
  · by_cases hw : 0 < w ∧ 0 < h <;> by_cases hs : sc = 1 <;>
      simp [renderOpsTs, hasCrop, hw, hs, List.any_append]
  · by_cases hw : 0 < w ∧ 0 < h <;> by_cases hs : sc = 1 <;>
      simp [renderOpsMjsCompositor, hasCrop, hw, hs, List.any_append]
  · by_cases hw : 0 < w ∧ 0 < h <;> by_cases hs : sc.getD 1 = 1 <;>
      simp [renderOpsTsFrame, hasCrop, hw, hs, List.any_append]
  · by_cases hs : sc = 1 <;> simp [renderOpsMjsFrame, hasCrop, hs]

/-- C9 (counterexample): the gif.mjs single-frame path crops a degenerate
`h = 0` rectangle instead of treating it as "no crop". -/
theorem crop_gate_counterexample :
    hasCrop (renderOpsMjsFrame 0 0 1 0 1) = true ∧ ¬ (0 < (1 : Rat) ∧ 0 < (0 : Rat)) := by
  constructor
  · decide
  · norm_num

lemma nnFrames_fr {x y w h sc : Option Rat} {n : Int} {uf : Option (List (Int ⊕ MOpt))}
    {bl : Option (List (Rat × Rat × MOpt))}
    (hnn : nnFrames (.mk x y w h sc (some n) uf bl) = true) : 0 ≤ n := by
  rw [nnFrames.eq_def] at hnn
  simp only [Bool.and_eq_true, decide_eq_true_eq] at hnn
  exact hnn.1.1

lemma nnFrames_uf {x y w h sc : Option Rat} {fr : Option Int} {l : List (Int ⊕ MOpt)}
    {bl : Option (List (Rat × Rat × MOpt))}
    (hnn : nnFrames (.mk x y w h sc fr (some l) bl) = true) : nnUFList l = true := by
  rw [nnFrames.eq_def] at hnn
  simp only [Bool.and_eq_true, decide_eq_true_eq] at hnn
  exact hnn.1.2

lemma nnFrames_bl {x y w h sc : Option Rat} {fr : Option Int}
    {uf : Option (List (Int ⊕ MOpt))} {l : List (Rat × Rat × MOpt)}
    (hnn : nnFrames (.mk x y w h sc fr uf (some l)) = true) : nnBIList l = true := by
  rw [nnFrames.eq_def] at hnn
  simp only [Bool.and_eq_true, decide_eq_true_eq] at hnn
  exact hnn.2

lemma nnUFList_mem_inl {l : List (Int ⊕ MOpt)} (h : nnUFList l = true) {n : Int}
    (hm : Sum.inl n ∈ l) : 0 ≤ n := by
  induction l with
  | nil => cases hm
  | cons q r ih =>
    rcases List.mem_cons.1 hm with hq | hm'
    · cases hq
      rw [nnUFList.eq_def] at h
      simp only [Bool.and_eq_true, decide_eq_true_eq] at h
      exact h.1
    · cases q with
      | inl m =>
        rw [nnUFList.eq_def] at h
        simp only [Bool.and_eq_true] at h
        exact ih h.2 hm'
      | inr o =>
        rw [nnUFList.eq_def] at h
        simp only [Bool.and_eq_true] at h
        exact ih h.2 hm'

lemma nnUFList_mem_inr {l : List (Int ⊕ MOpt)} (h : nnUFList l = true) {b : MOpt}
    (hm : Sum.inr b ∈ l) : nnFrames b = true := by
  induction l with
  | nil => cases hm
  | cons q r ih =>
    rcases List.mem_cons.1 hm with hq | hm'
    · cases hq
      rw [nnUFList.eq_def] at h
      simp only [Bool.and_eq_true] at h
      exact h.1
    · cases q with
      | inl m =>
        rw [nnUFList.eq_def] at h
        simp only [Bool.and_eq_true] at h
        exact ih h.2 hm'
      | inr o =>
        rw [nnUFList.eq_def] at h
        simp only [Bool.and_eq_true] at h
        exact ih h.2 hm'

lemma nnBIList_mem {l : List (Rat × Rat × MOpt)} (h : nnBIList l = true)
    {p : Rat × Rat × MOpt} (hm : p ∈ l) : nnFrames p.2.2 = true := by
  induction l with
  | nil => cases hm
  | cons q r ih =>
    obtain ⟨a, b, o⟩ := q
    rcases List.mem_cons.1 hm with rfl | hm'
    · rw [nnBIList.eq_def] at h
      simp only [Bool.and_eq_true] at h
      exact h.1
    · rw [nnBIList.eq_def] at h
      simp only [Bool.and_eq_true] at h
      exact ih h.2 hm'

lemma curUF_eq_some {idx : Nat} {uf : Option (List (Int ⊕ MOpt))} {e : Int ⊕ MOpt}
    (hc : curUF idx uf = some e) :
    ∃ l, uf = some l ∧ l.get? (idx % l.length) = some e := by
  cases uf with
  | none => simp [curUF] at hc
  | some l => exact ⟨l, rfl, hc⟩

lemma nnFrames_bundle {x y w h sc : Option Rat} {fr : Option Int}
    {uf : Option (List (Int ⊕ MOpt))} {bl : Option (List (Rat × Rat × MOpt))} {idx : Nat}
    {b : MOpt} (hnn : nnFrames (.mk x y w h sc fr uf bl) = true)
    (hcb : bundleOf (curUF idx uf) = some b) : nnFrames b = true := by
  obtain ⟨l, rfl, hmem⟩ := bundleOf_curUF_mem hcb
  exact nnUFList_mem_inr (nnFrames_uf hnn) hmem

lemma nnFrames_combined {x y w h sc : Option Rat} {fr : Option Int}
    {uf : Option (List (Int ⊕ MOpt))} {bl : Option (List (Rat × Rat × MOpt))} {idx : Nat}
    {p : Rat × Rat × MOpt} (hnn : nnFrames (.mk x y w h sc fr uf bl) = true)
    (hm : p ∈ combinedBlits idx uf bl) : nnFrames p.2.2 = true := by
  rcases List.mem_append.1 hm with h1 | h2
  · cases bl with
    | none => simp at h1
    | some l =>
      simp only [Option.getD_some] at h1
      exact nnBIList_mem (nnFrames_bl hnn) h1
  · rcases hcb : bundleOf (curUF idx uf) with _ | b
    · rw [hcb] at h2; simp at h2
    · rw [hcb] at h2
      have h2' : p ∈ (MOpt.blitImages b).getD [] := h2
      have hb := nnFrames_bundle hnn hcb
      cases b with
      | mk bx by' bw bh bsc bfr buf bbl =>
        cases bbl with
        | none => simp [MOpt.blitImages] at h2'
        | some lb =>
          simp only [MOpt.blitImages, Option.getD_some] at h2'
          exact nnBIList_mem (nnFrames_bl hb) h2'

lemma fixedFrame_nonneg {fc idx : Nat} {x y w h sc : Option Rat} {fr : Option Int}
    {uf : Option (List (Int ⊕ MOpt))} {bl : Option (List (Rat × Rat × MOpt))}
    (hnn : nnFrames (.mk x y w h sc fr uf bl) = true) :
    0 ≤ fixedFrame fc idx (curUF idx uf) fr := by
  rw [fixedFrame.eq_def]
  refine Int.tmod_nonneg _ ?_
  have hfr : ∀ z : Int, 0 ≤ z → 0 ≤ fr.getD z := by
    intro z hz
    cases fr with
    | none => exact hz
    | some n => exact nnFrames_fr hnn
  rcases hcur : curUF idx uf with _ | e
  · exact hfr _ (Int.natCast_nonneg idx)
  · cases e with
    | inl n =>
      obtain ⟨l, rfl, hg⟩ := curUF_eq_some hcur
      exact nnUFList_mem_inl (nnFrames_uf hnn) (List.get?_mem hg)
    | inr b =>
      have hb : nnFrames b = true := nnFrames_bundle hnn (by rw [hcur]; rfl)
      cases b with
      | mk bx by' bw bh bsc bfr buf bbl =>
        cases bfr with
        | none => exact hfr _ (Int.natCast_nonneg idx)
        | some n => exact nnFrames_fr hb

lemma nnFrames_mergeBi {m : RegularOpt} {bi : MOpt} (hbi : nnFrames bi = true)
    (hm : 0 ≤ m.frame) : nnFrames (mergeBi m bi) = true := by
  cases bi with
  | mk bx by' bw bh bsc bfr buf bbl =>
    rw [mergeBi]
    simp only [MOpt.x, MOpt.y, MOpt.w, MOpt.h, MOpt.scale, MOpt.frame, MOpt.useFrames,
      MOpt.blitImages]
    cases bfr with
    | none =>
      rw [nnFrames.eq_def] at hbi
      simp only [Bool.and_eq_true, decide_eq_true_eq] at hbi
      rw [nnFrames.eq_def]
      simp only [Option.none_orElse, Bool.and_eq_true, decide_eq_true_eq]
      exact ⟨⟨hm, hbi.1.2⟩, hbi.2⟩
    | some nn =>
      rw [nnFrames.eq_def] at hbi
      simp only [Bool.and_eq_true, decide_eq_true_eq] at hbi
      rw [nnFrames.eq_def]
      simp only [Option.some_orElse, Bool.and_eq_true, decide_eq_true_eq]
      exact ⟨⟨hbi.1.1, hbi.1.2⟩, hbi.2⟩

lemma regOne_frames_aux : ∀ (fuel : Nat) (o : MOpt) (fc idx : Nat), mSize o ≤ fuel →
    nnFrames o = true → 0 < fc →
    ∀ e ∈ regOne fc idx o, 0 ≤ e.frame ∧ e.frame < (fc : Int) := by
  intro fuel
  induction fuel with
  | zero =>
    intro o fc idx hle _ _
    exfalso
    cases o with
    | mk x y w h sc fr uf bl => cases uf <;> cases bl <;> simp [mSize] at hle
  | succ n ih =>
    intro o fc idx hle hnn hfc e he
    cases o with
    | mk x y w h sc fr uf bl =>
      rw [regOne_eq] at he
      have hffn : 0 ≤ fixedFrame fc idx (curUF idx uf) fr := fixedFrame_nonneg hnn
      have hfflt : fixedFrame fc idx (curUF idx uf) fr < (fc : Int) := by
        rw [fixedFrame.eq_def]
        exact Int.tmod_lt_of_pos _ (by exact_mod_cast hfc)
      rcases List.mem_cons.1 he with rfl | hmem
      · exact ⟨hffn, hfflt⟩
      · obtain ⟨t, ht, he2⟩ := List.mem_flatMap.1 hmem
        obtain ⟨e', he', rfl⟩ := List.mem_map.1 he2
        have hsz : mSize (mergeBi (mainTs fc idx x y w h sc fr uf) t.2.2) ≤ n := by
          rw [mSize_mergeBi]
          have := mSize_lt_of_mem_combined ht x y w h sc fr
          omega
        have hnn' : nnFrames (mergeBi (mainTs fc idx x y w h sc fr uf) t.2.2) = true :=
          nnFrames_mergeBi (nnFrames_combined hnn ht) hffn
        exact ih _ fc idx hsz hnn' hfc e' he'

/-- C3 (amended): when every declared `frame` field and bare `useFrames`
number in the recipe is non-negative and `frameCount` is positive, every
resolved element's frame lies in `[0, frameCount)`; a negative declared
frame instead wraps by JS `%` to a non-positive value (see the
counterexample), never raising an error. -/
theorem frame_range_amended (o : MOpt) (fc : Nat) (hnn : nnFrames o = true)
    (hfc : 0 < fc) :
    ∀ f ∈ regularizeOption o fc, ∀ e ∈ f, 0 ≤ e.frame ∧ e.frame < (fc : Int) := by
  intro f hf e he
  rw [regularizeOption] at hf
  obtain ⟨idx, _, rfl⟩ := List.mem_map.1 hf
  exact regOne_frames_aux (mSize o) o fc idx (le_refl _) hnn hfc e he

theorem frame_range_amended_witness :
    nnFrames (.mk none none none none none (some 1) (some [Sum.inl 0])
      (some [(0, 0, .mk none none none none none none none none)])) = true ∧
    0 < 2 ∧
    (∀ f ∈ regularizeOption (.mk none none none none none (some 1) (some [Sum.inl 0])
        (some [(0, 0, .mk none none none none none none none none)])) 2,
      ∀ e ∈ f, 0 ≤ e.frame ∧ e.frame < ((2 : Nat) : Int)) :=
  ⟨by decide, by decide, frame_range_amended _ 2 (by decide) (by decide)⟩

/-- C3 (counterexample): a recipe declaring `frame: -1` with `frameCount 3`
resolves to frame `-1` (JS `%` keeps the dividend's sign), outside
`[0, frameCount)` and not wrapped to a non-negative value. -/
theorem frame_range_counterexample :
    ((regularizeOption (.mk none none none none none (some (-1)) none none) 3).get? 0).map
      (List.map RegularOpt.frame) = some [-1] ∧ ¬ (0 ≤ (-1 : Int)) := by
  constructor
  · rw [regularizeOption_eqF 1 _ 3 (by decide)]
    decide
  · decide

lemma ufDvd_uf {P : Nat} {x y w h sc : Option Rat} {fr : Option Int}
    {l : List (Int ⊕ MOpt)} {bl : Option (List (Rat × Rat × MOpt))}
    (hd : ufDvd P (.mk x y w h sc fr (some l) bl) = true) :
    (l = [] ∨ l.length ∣ P) ∧ ufDvdUFList P l = true := by
  rw [ufDvd.eq_def] at hd
  simp only [Bool.and_eq_true, Bool.or_eq_true, decide_eq_true_eq, List.isEmpty_iff] at hd
  exact ⟨hd.1.1, hd.1.2⟩

lemma ufDvd_bl {P : Nat} {x y w h sc : Option Rat} {fr : Option Int}
    {uf : Option (List (Int ⊕ MOpt))} {l : List (Rat × Rat × MOpt)}
    (hd : ufDvd P (.mk x y w h sc fr uf (some l)) = true) : ufDvdBIList P l = true := by
  rw [ufDvd.eq_def] at hd
  simp only [Bool.and_eq_true] at hd
  exact hd.2

lemma ufDvdUFList_mem_inr {P : Nat} {l : List (Int ⊕ MOpt)}
    (h : ufDvdUFList P l = true) {b : MOpt} (hm : Sum.inr b ∈ l) : ufDvd P b = true := by
  induction l with
  | nil => cases hm
  | cons q r ih =>
    rcases List.mem_cons.1 hm with hq | hm'
    · cases hq
      rw [ufDvdUFList.eq_def] at h
      simp only [Bool.and_eq_true] at h
      exact h.1
    · cases q with
      | inl m =>
        rw [ufDvdUFList.eq_def] at h
        exact ih h hm'
      | inr o =>
        rw [ufDvdUFList.eq_def] at h
        simp only [Bool.and_eq_true] at h
        exact ih h.2 hm'

lemma ufDvdBIList_mem {P : Nat} {l : List (Rat × Rat × MOpt)}
    (h : ufDvdBIList P l = true) {p : Rat × Rat × MOpt} (hm : p ∈ l) :
    ufDvd P p.2.2 = true := by
  induction l with
  | nil => cases hm
  | cons q r ih =>
    obtain ⟨a, b, o⟩ := q
    rcases List.mem_cons.1 hm with rfl | hm'
    · rw [ufDvdBIList.eq_def] at h
      simp only [Bool.and_eq_true] at h
      exact h.1
    · rw [ufDvdBIList.eq_def] at h
      simp only [Bool.and_eq_true] at h
      exact ih h.2 hm'

lemma ufDvd_bundle {P : Nat} {x y w h sc : Option Rat} {fr : Option Int}
    {uf : Option (List (Int ⊕ MOpt))} {bl : Option (List (Rat × Rat × MOpt))} {idx : Nat}
    {b : MOpt} (hd : ufDvd P (.mk x y w h sc fr uf bl) = true)
    (hcb : bundleOf (curUF idx uf) = some b) : ufDvd P b = true := by
  obtain ⟨l, rfl, hmem⟩ := bundleOf_curUF_mem hcb
  exact ufDvdUFList_mem_inr (ufDvd_uf hd).2 hmem

lemma ufDvd_combined {P : Nat} {x y w h sc : Option Rat} {fr : Option Int}
    {uf : Option (List (Int ⊕ MOpt))} {bl : Option (List (Rat × Rat × MOpt))} {idx : Nat}
    {p : Rat × Rat × MOpt} (hd : ufDvd P (.mk x y w h sc fr uf bl) = true)
    (hm : p ∈ combinedBlits idx uf bl) : ufDvd P p.2.2 = true := by
  rcases List.mem_append.1 hm with h1 | h2
  · cases bl with
    | none => simp at h1
    | some l =>
      simp only [Option.getD_some] at h1
      exact ufDvdBIList_mem (ufDvd_bl hd) h1
  · rcases hcb : bundleOf (curUF idx uf) with _ | b
    · rw [hcb] at h2; simp at h2
    · rw [hcb] at h2
      have h2' : p ∈ (MOpt.blitImages b).getD [] := h2
      have hb := ufDvd_bundle hd hcb
      cases b with
      | mk bx by' bw bh bsc bfr buf bbl =>
        cases bbl with
        | none => simp [MOpt.blitImages] at h2'
        | some lb =>
          simp only [MOpt.blitImages, Option.getD_some] at h2'
          exact ufDvdBIList_mem (ufDvd_bl hb) h2'

lemma ufDvd_mergeBi {P : Nat} (m : RegularOpt) (bi : MOpt) :
    ufDvd P (mergeBi m bi) = ufDvd P bi := by
  cases bi with
  | mk bx by' bw bh bsc bfr buf bbl => cases buf <;> cases bbl <;> rfl

lemma curUF_period {i P : Nat} {uf : Option (List (Int ⊕ MOpt))}
    (hlen : ∀ l, uf = some l → l = [] ∨ l.length ∣ P) :
    curUF (i + P) uf = curUF i uf := by
  cases uf with
  | none => rfl
  | some l =>
    rcases hlen l rfl with rfl | hdvd
    · rfl
    · rw [curUF, curUF]
      obtain ⟨k, rfl⟩ := hdvd
      rw [Nat.add_mul_mod_self_left]

lemma natCast_tmod_period {i P fc : Nat} (hfc : fc ∣ P) :
    (((i + P : Nat) : Int)).tmod (fc : Int) = ((i : Nat) : Int).tmod (fc : Int) := by
  rw [← Int.ofNat_tmod, ← Int.ofNat_tmod]
  obtain ⟨k, rfl⟩ := hfc
  rw [Nat.add_mul_mod_self_left]

lemma fixedFrame_period {fc i P : Nat} (cur : Option (Int ⊕ MOpt)) (fr : Option Int)
    (hfc : fc ∣ P) : fixedFrame fc (i + P) cur fr = fixedFrame fc i cur fr := by
  have hgetD : ∀ fr' : Option Int,
      (Option.getD fr' ((i + P : Nat) : Int)).tmod (fc : Int) =
        (Option.getD fr' ((i : Nat) : Int)).tmod (fc : Int) := by
    intro fr'
    cases fr' with
    | none => exact natCast_tmod_period hfc
    | some n => rfl
  rw [fixedFrame.eq_def, fixedFrame.eq_def]
  rcases cur with _ | e
  · exact hgetD fr
  · cases e with
    | inl n => rfl
    | inr b =>
      cases b with
      | mk bx by' bw bh bsc bfr buf bbl =>
        cases bfr with
        | none => exact hgetD fr
        | some n => rfl

lemma regOne_period_aux : ∀ (fuel : Nat) (o : MOpt) (fc i P : Nat), mSize o ≤ fuel →
    ufDvd P o = true → fc ∣ P → regOne fc i o = regOne fc (i + P) o := by
  intro fuel
  induction fuel with
  | zero =>
    intro o fc i P hle _ _
    exfalso
    cases o with
    | mk x y w h sc fr uf bl => cases uf <;> cases bl <;> simp [mSize] at hle
  | succ n ih =>
    intro o fc i P hle hdvd hfc
    cases o with
    | mk x y w h sc fr uf bl =>
      have hlen : ∀ l, uf = some l → l = [] ∨ l.length ∣ P := by
        intro l hl
        subst hl
        exact (ufDvd_uf hdvd).1
      have hcur : curUF (i + P) uf = curUF i uf := curUF_period hlen
      have hmain : mainTs fc (i + P) x y w h sc fr uf = mainTs fc i x y w h sc fr uf := by
        rw [mainTs, mainTs, hcur, fixedFrame_period _ _ hfc]
      have hcb : combinedBlits (i + P) uf bl = combinedBlits i uf bl := by
        rw [combinedBlits, combinedBlits, hcur]
      rw [regOne_eq, regOne_eq, hmain, hcb]
      refine congrArg _ (flatMap_congr_mem (fun t ht => ?_))
      have hsz : mSize (mergeBi (mainTs fc i x y w h sc fr uf) t.2.2) ≤ n := by
        rw [mSize_mergeBi]
        have := mSize_lt_of_mem_combined ht x y w h sc fr
        omega
      rw [ih _ fc i P hsz (by rw [ufDvd_mergeBi]; exact ufDvd_combined hdvd ht) hfc]

/-- C7 (amended): per-frame resolution is periodic with period `P` whenever
every `useFrames` length in the recipe tree divides `P` (or is empty) and
`frameCount` divides `P`; the period `L = |useFrames|` alone does not
suffice because nested `useFrames` lengths and the output-index fallback
cycle with their own periods (see the counterexample). -/
theorem periodicity_amended (o : MOpt) (fc i P : Nat) (hdvd : ufDvd P o = true)
    (hfc : fc ∣ P) : regOne fc i o = regOne fc (i + P) o :=
  regOne_period_aux (mSize o) o fc i P (le_refl _) hdvd hfc

theorem periodicity_amended_witness :
    ufDvd 6 (.mk none none none none none none (some [Sum.inl 0, Sum.inl 1]) none) = true ∧
    3 ∣ 6 ∧
    regOne 3 1 (.mk none none none none none none (some [Sum.inl 0, Sum.inl 1]) none) =
      regOne 3 (1 + 6) (.mk none none none none none none
        (some [Sum.inl 0, Sum.inl 1]) none) :=
  ⟨by decide, by decide,
    periodicity_amended (.mk none none none none none none
      (some [Sum.inl 0, Sum.inl 1]) none) 3 1 6 (by decide) (by decide)⟩

/-- C7 (counterexample): a recipe whose `useFrames` are two empty override
bundles (`L = 2`) on a 3-frame source resolves differently at output
indices `0` and `0 + L`: the frame falls back to the output index, which is
not `L`-periodic. -/
theorem periodicity_counterexample :
    regOne 3 0 (.mk none none none none none none
      (some [Sum.inr (.mk none none none none none none none none),
             Sum.inr (.mk none none none none none none none none)]) none) ≠
    regOne 3 (0 + 2) (.mk none none none none none none
      (some [Sum.inr (.mk none none none none none none none none),
             Sum.inr (.mk none none none none none none none none)]) none) := by
  intro hEq
  have hmap := congrArg (List.map RegularOpt.frame) hEq
  rw [show List.map RegularOpt.frame (regOne 3 0 (.mk none none none none none none
        (some [Sum.inr (.mk none none none none none none none none),
               Sum.inr (.mk none none none none none none none none)]) none)) = [0] from by
      rw [← regOneF_eq 5 3 0 _ (by decide)]
      decide,
    show List.map RegularOpt.frame (regOne 3 (0 + 2) (.mk none none none none none none
        (some [Sum.inr (.mk none none none none none none none none),
               Sum.inr (.mk none none none none none none none none)]) none)) = [2] from by
      rw [← regOneF_eq 5 3 (0 + 2) _ (by decide)]
      decide] at hmap
  exact absurd hmap (by decide)

lemma noScale_uf {x y w h sc : Option Rat} {fr : Option Int} {l : List (Int ⊕ MOpt)}
    {bl : Option (List (Rat × Rat × MOpt))}
    (hns : subNoScale (.mk x y w h sc fr (some l) bl) = true) : noScaleUFList l = true := by
  rw [subNoScale.eq_def] at hns
  simp only [Bool.and_eq_true] at hns
  exact hns.1

lemma noScale_bl {x y w h sc : Option Rat} {fr : Option Int}
    {uf : Option (List (Int ⊕ MOpt))} {l : List (Rat × Rat × MOpt)}
    (hns : subNoScale (.mk x y w h sc fr uf (some l)) = true) : noScaleBIList l = true := by
  rw [subNoScale.eq_def] at hns
  simp only [Bool.and_eq_true] at hns
  exact hns.2

lemma noScaleUFList_mem_inr {l : List (Int ⊕ MOpt)} (h : noScaleUFList l = true) {b : MOpt}
    (hm : Sum.inr b ∈ l) : MOpt.scale b = none ∧ subNoScale b = true := by
  induction l with
  | nil => cases hm
  | cons q r ih =>
    rcases List.mem_cons.1 hm with hq | hm'
    · cases hq
      rw [noScaleUFList.eq_def] at h
      simp only [Bool.and_eq_true, Option.isNone_iff_eq_none] at h
      exact ⟨h.1.1, h.1.2⟩
    · cases q with
      | inl m =>
        rw [noScaleUFList.eq_def] at h
        exact ih h hm'
      | inr o =>
        rw [noScaleUFList.eq_def] at h
        simp only [Bool.and_eq_true] at h
        exact ih h.2 hm'

lemma noScaleBIList_mem {l : List (Rat × Rat × MOpt)} (h : noScaleBIList l = true)
    {p : Rat × Rat × MOpt} (hm : p ∈ l) :
    MOpt.scale p.2.2 = none ∧ subNoScale p.2.2 = true := by
  induction l with
  | nil => cases hm
  | cons q r ih =>
    obtain ⟨a, b, o⟩ := q
    rcases List.mem_cons.1 hm with rfl | hm'
    · rw [noScaleBIList.eq_def] at h
      simp only [Bool.and_eq_true, Option.isNone_iff_eq_none] at h
      exact ⟨h.1.1, h.1.2⟩
    · rw [noScaleBIList.eq_def] at h
      simp only [Bool.and_eq_true] at h
      exact ih h.2 hm'

lemma noScale_bundle {x y w h sc : Option Rat} {fr : Option Int}
    {uf : Option (List (Int ⊕ MOpt))} {bl : Option (List (Rat × Rat × MOpt))} {idx : Nat}
    {b : MOpt} (hns : subNoScale (.mk x y w h sc fr uf bl) = true)
    (hcb : bundleOf (curUF idx uf) = some b) :
    MOpt.scale b = none ∧ subNoScale b = true := by
  obtain ⟨l, rfl, hmem⟩ := bundleOf_curUF_mem hcb
  exact noScaleUFList_mem_inr (noScale_uf hns) hmem

lemma noScale_combined {x y w h sc : Option Rat} {fr : Option Int}
    {uf : Option (List (Int ⊕ MOpt))} {bl : Option (List (Rat × Rat × MOpt))} {idx : Nat}
    {p : Rat × Rat × MOpt} (hns : subNoScale (.mk x y w h sc fr uf bl) = true)
    (hm : p ∈ combinedBlits idx uf bl) :
    MOpt.scale p.2.2 = none ∧ subNoScale p.2.2 = true := by
  rcases List.mem_append.1 hm with h1 | h2
  · cases bl with
    | none => simp at h1
    | some l =>
      simp only [Option.getD_some] at h1
      exact noScaleBIList_mem (noScale_bl hns) h1
  · rcases hcb : bundleOf (curUF idx uf) with _ | b
    · rw [hcb] at h2; simp at h2
    · rw [hcb] at h2
      have h2' : p ∈ (MOpt.blitImages b).getD [] := h2
      have hb := noScale_bundle hns hcb
      cases b with
      | mk bx by' bw bh bsc bfr buf bbl =>
        cases bbl with
        | none => simp [MOpt.blitImages] at h2'
        | some lb =>
          simp only [MOpt.blitImages, Option.getD_some] at h2'
          exact noScaleBIList_mem (noScale_bl hb.2) h2'

lemma subNoScale_mergeBi (m : RegularOpt) (bi : MOpt) :
    subNoScale (mergeBi m bi) = subNoScale bi := by
  cases bi with
  | mk bx by' bw bh bsc bfr buf bbl => cases buf <;> cases bbl <;> rfl

lemma subNoScale_mergeBiMjs (m : RegularOpt) (bi : MOpt) :
    subNoScale (mergeBiMjs m bi) = subNoScale bi := by
  cases bi with
  | mk bx by' bw bh bsc bfr buf bbl => cases buf <;> cases bbl <;> rfl

lemma mainMjs_scale_noScale {x y w h sc : Option Rat} {fr : Option Int}
    {uf : Option (List (Int ⊕ MOpt))} {bl : Option (List (Rat × Rat × MOpt))}
    {fc idx : Nat} (hns : subNoScale (.mk x y w h sc fr uf bl) = true) :
    (mainMjs fc idx x y w h sc fr uf).scale = sc.getD 1 := by
  show ((bundleOf (curUF idx uf)).bind MOpt.scale <|> sc).getD 1 = sc.getD 1
  rcases hcb : bundleOf (curUF idx uf) with _ | b
  · rfl
  · have hb := (noScale_bundle hns hcb).1
    show (MOpt.scale b <|> sc).getD 1 = sc.getD 1
    rw [hb, Option.none_orElse]

lemma regOneMjs_uniform_scale : ∀ (fuel : Nat) (o : MOpt) (fc idx : Nat),
    mSize o ≤ fuel → subNoScale o = true →
    ∀ e ∈ regOneMjs fc idx o, e.scale = (MOpt.scale o).getD 1 := by
  intro fuel
  induction fuel with
  | zero =>
    intro o fc idx hle _
    exfalso
    cases o with
    | mk x y w h sc fr uf bl => cases uf <;> cases bl <;> simp [mSize] at hle
  | succ n ih =>
    intro o fc idx hle hns e he
    cases o with
    | mk x y w h sc fr uf bl =>
      rw [regOneMjs_eq] at he
      have hmsc : (mainMjs fc idx x y w h sc fr uf).scale = sc.getD 1 :=
        mainMjs_scale_noScale hns
      rcases List.mem_cons.1 he with rfl | hmem
      · show (mainMjs fc idx x y w h sc fr uf).scale = (MOpt.scale (.mk x y w h sc fr uf bl)).getD 1
        rw [hmsc]
        rfl
      · obtain ⟨t, ht, he2⟩ := List.mem_flatMap.1 hmem
        obtain ⟨e', he', rfl⟩ := List.mem_map.1 he2
        obtain ⟨hbisc, hbins⟩ := noScale_combined hns ht
        have hsz : mSize (mergeBiMjs (mainMjs fc idx x y w h sc fr uf) t.2.2) ≤ n := by
          rw [mSize_mergeBiMjs]
          have := mSize_lt_of_mem_combined ht x y w h sc fr
          omega
        have hns' : subNoScale (mergeBiMjs (mainMjs fc idx x y w h sc fr uf) t.2.2) = true := by
          rw [subNoScale_mergeBiMjs]
          exact hbins
        have h1 := ih _ fc idx hsz hns' e' he'
        have h2 : (MOpt.scale (mergeBiMjs (mainMjs fc idx x y w h sc fr uf) t.2.2)).getD 1
            = (mainMjs fc idx x y w h sc fr uf).scale := by
          show (MOpt.scale t.2.2 <|> some (mainMjs fc idx x y w h sc fr uf).scale).getD 1 = _
          rw [hbisc, Option.none_orElse, Option.getD_some]
        rw [h2] at h1
        show e'.scale = (MOpt.scale (.mk x y w h sc fr uf bl)).getD 1
        rw [h1, hmsc]
        rfl

lemma regOne_variants_aux : ∀ (fuel : Nat) (o₁ o₂ : MOpt) (fc idx : Nat),
    mSize o₁ ≤ fuel → MOpt.scale o₁ = MOpt.scale o₂ →
    MOpt.useFrames o₁ = MOpt.useFrames o₂ → MOpt.blitImages o₁ = MOpt.blitImages o₂ →
    subNoScale o₁ = true →
    (regOne fc idx o₁).map scalePos = (regOneMjs fc idx o₂).map scalePos := by
  intro fuel
  induction fuel with
  | zero =>
    intro o₁ o₂ fc idx hle _ _ _ _
    exfalso
    cases o₁ with
    | mk x y w h sc fr uf bl => cases uf <;> cases bl <;> simp [mSize] at hle
  | succ n ih =>
    intro o₁ o₂ fc idx hle hsc huf hbl hns
    cases o₁ with
    | mk x1 y1 w1 h1 sc1 fr1 uf1 bl1 =>
      cases o₂ with
      | mk x2 y2 w2 h2 sc2 fr2 uf2 bl2 =>
        simp only [MOpt.scale] at hsc
        simp only [MOpt.useFrames] at huf
        simp only [MOpt.blitImages] at hbl
        subst hsc
        subst huf
        subst hbl
        rw [regOne_eq, regOneMjs_eq, List.map_cons, List.map_cons]
        have hhead : scalePos (mainTs fc idx x1 y1 w1 h1 sc1 fr1 uf1)
            = scalePos (mainMjs fc idx x2 y2 w2 h2 sc1 fr2 uf1) := rfl
        rw [hhead]
        refine congrArg _ ?_
        rw [List.map_flatMap, List.map_flatMap]
        refine flatMap_congr_mem (fun t ht => ?_)
        obtain ⟨hbisc, hbins⟩ := noScale_combined hns ht
        have hms : (mainTs fc idx x1 y1 w1 h1 sc1 fr1 uf1).scale
            = (mainMjs fc idx x2 y2 w2 h2 sc1 fr2 uf1).scale := rfl
        have hszlt := mSize_lt_of_mem_combined ht x1 y1 w1 h1 sc1 fr1
        have hsz : mSize (mergeBi (mainTs fc idx x1 y1 w1 h1 sc1 fr1 uf1) t.2.2) ≤ n := by
          rw [mSize_mergeBi]
          omega
        have hsc' : MOpt.scale (mergeBi (mainTs fc idx x1 y1 w1 h1 sc1 fr1 uf1) t.2.2)
            = MOpt.scale (mergeBiMjs (mainMjs fc idx x2 y2 w2 h2 sc1 fr2 uf1) t.2.2) := by
          show some ((mainTs fc idx x1 y1 w1 h1 sc1 fr1 uf1).scale * jsOr1 (MOpt.scale t.2.2))
            = (MOpt.scale t.2.2 <|> some (mainMjs fc idx x2 y2 w2 h2 sc1 fr2 uf1).scale)
          rw [hbisc, Option.none_orElse]
          show some ((mainTs fc idx x1 y1 w1 h1 sc1 fr1 uf1).scale * 1) = _
          rw [mul_one]
          exact congrArg some hms
        have huf' : MOpt.useFrames (mergeBi (mainTs fc idx x1 y1 w1 h1 sc1 fr1 uf1) t.2.2)
            = MOpt.useFrames (mergeBiMjs (mainMjs fc idx x2 y2 w2 h2 sc1 fr2 uf1) t.2.2) :=
          rfl
        have hbl' : MOpt.blitImages (mergeBi (mainTs fc idx x1 y1 w1 h1 sc1 fr1 uf1) t.2.2)
            = MOpt.blitImages (mergeBiMjs (mainMjs fc idx x2 y2 w2 h2 sc1 fr2 uf1) t.2.2) :=
          rfl
        have hns' : subNoScale (mergeBi (mainTs fc idx x1 y1 w1 h1 sc1 fr1 uf1) t.2.2)
            = true := by
          rw [subNoScale_mergeBi]
          exact hbins
        have hinner := ih _ _ fc idx hsz hsc' huf' hbl' hns'
        have huni : ∀ e ∈ regOneMjs fc idx
            (mergeBiMjs (mainMjs fc idx x2 y2 w2 h2 sc1 fr2 uf1) t.2.2),
            e.scale = (mainMjs fc idx x2 y2 w2 h2 sc1 fr2 uf1).scale := by
          intro e he
          have h1 := regOneMjs_uniform_scale
            (mSize (mergeBiMjs (mainMjs fc idx x2 y2 w2 h2 sc1 fr2 uf1) t.2.2)) _ fc idx
            (le_refl _) (by rw [subNoScale_mergeBiMjs]; exact hbins) e he
          have h2 : (MOpt.scale
              (mergeBiMjs (mainMjs fc idx x2 y2 w2 h2 sc1 fr2 uf1) t.2.2)).getD 1
              = (mainMjs fc idx x2 y2 w2 h2 sc1 fr2 uf1).scale := by
            show (MOpt.scale t.2.2
              <|> some (mainMjs fc idx x2 y2 w2 h2 sc1 fr2 uf1).scale).getD 1 = _
            rw [hbisc, Option.none_orElse, Option.getD_some]
          rw [h2] at h1
          exact h1
        rw [List.map_map, List.map_map]
        have hcomp1 : scalePos ∘ (fun e : RegularOpt => { e with
            posX := t.1 * (mainTs fc idx x1 y1 w1 h1 sc1 fr1 uf1).scale + e.posX,
            posY := t.2.1 * (mainTs fc idx x1 y1 w1 h1 sc1 fr1 uf1).scale + e.posY })
            = (fun p : Rat × Rat × Rat =>
                (p.1, t.1 * (mainTs fc idx x1 y1 w1 h1 sc1 fr1 uf1).scale + p.2.1,
                 t.2.1 * (mainTs fc idx x1 y1 w1 h1 sc1 fr1 uf1).scale + p.2.2)) ∘
              scalePos := rfl
        have hcomp2 : scalePos ∘ (fun e : RegularOpt => { e with
            posX := t.1 * e.scale + e.posX,
            posY := t.2.1 * e.scale + e.posY })
            = (fun p : Rat × Rat × Rat =>
                (p.1, t.1 * p.1 + p.2.1, t.2.1 * p.1 + p.2.2)) ∘ scalePos := rfl
        rw [hcomp1, hcomp2, ← List.map_map, ← List.map_map, hinner]
        refine List.map_congr_left (fun p hp => ?_)
        obtain ⟨e, he, rfl⟩ := List.mem_map.1 hp
        have hes := huni e he
        show ((scalePos e).1,
            t.1 * (mainTs fc idx x1 y1 w1 h1 sc1 fr1 uf1).scale + (scalePos e).2.1,
            t.2.1 * (mainTs fc idx x1 y1 w1 h1 sc1 fr1 uf1).scale + (scalePos e).2.2)
          = ((scalePos e).1, t.1 * (scalePos e).1 + (scalePos e).2.1,
            t.2.1 * (scalePos e).1 + (scalePos e).2.2)
        show (e.scale, t.1 * (mainTs fc idx x1 y1 w1 h1 sc1 fr1 uf1).scale + e.posX,
            t.2.1 * (mainTs fc idx x1 y1 w1 h1 sc1 fr1 uf1).scale + e.posY)
          = (e.scale, t.1 * e.scale + e.posX, t.2.1 * e.scale + e.posY)
        rw [hes, hms]

/-- C6 (amended): the gif.ts and gif.mjs normalizers are not extensionally
equal in general, but for every recipe in which no `scale` is declared
below the root (no overlay entry and no override bundle declares `scale`)
they assign the same resolved scale and absolute position to every
element of every output frame. -/
theorem variant_equiv_amended (o : MOpt) (fc : Nat) (hns : subNoScale o = true) :
    (regularizeOption o fc).map (List.map scalePos)
      = (regularizeOptionMjs o fc).map (List.map scalePos) := by
  rw [regularizeOption, regularizeOptionMjs, List.map_map, List.map_map]
  refine List.map_congr_left (fun idx _ => ?_)
  show (regOne fc idx o).map scalePos = (regOneMjs fc idx o).map scalePos
  exact regOne_variants_aux (mSize o) o o fc idx (le_refl _) rfl rfl rfl hns

theorem variant_equiv_amended_witness :
    subNoScale (.mk none none none none (some 2) none none
      (some [(1, 1, .mk none none none none none none none none)])) = true ∧
    (regularizeOption (.mk none none none none (some 2) none none
        (some [(1, 1, .mk none none none none none none none none)])) 1).map
      (List.map scalePos) =
    (regularizeOptionMjs (.mk none none none none (some 2) none none
        (some [(1, 1, .mk none none none none none none none none)])) 1).map
      (List.map scalePos) :=
  ⟨by decide, variant_equiv_amended (.mk none none none none (some 2) none none
    (some [(1, 1, .mk none none none none none none none none)])) 1 (by decide)⟩

/-- C6 (counterexample): with root scale 2 and an overlay declaring scale 3
at offset (1, 0), gif.ts resolves the overlay to scale `2*3 = 6` at
`posX = 1*2 = 2`, while gif.mjs resolves it to scale `3` at
`posX = 1*3 = 3` — the two variants are not extensionally equal. -/
theorem variant_equiv_counterexample :
    ((regOne 1 0 (.mk none none none none (some 2) none none
        (some [(1, 0, .mk none none none none (some 3) none none none)]))).get? 1).map
      scalePos = some (6, 2, 0) ∧
    ((regOneMjs 1 0 (.mk none none none none (some 2) none none
        (some [(1, 0, .mk none none none none (some 3) none none none)]))).get? 1).map
      scalePos = some (3, 3, 0) ∧
    ((6 : Rat), (2 : Rat), (0 : Rat)) ≠ ((3 : Rat), (3 : Rat), (0 : Rat)) := by
  refine ⟨?_, ?_, by norm_num⟩
  · rw [← regOneF_eq 3 1 0 (MOpt.mk none none none none (some 2) none none
        (some [(1, 0, MOpt.mk none none none none (some 3) none none none)])) (by decide)]
    show some (((2 : Rat) * jsOr1 (some 3), 1 * (2 : Rat) + 0, 0 * (2 : Rat) + 0))
      = some ((6 : Rat), (2 : Rat), (0 : Rat))
    norm_num [jsOr1]
  · rw [← regOneMjsF_eq 3 1 0 (MOpt.mk none none none none (some 2) none none
        (some [(1, 0, MOpt.mk none none none none (some 3) none none none)])) (by decide)]
    show some (((3 : Rat), 1 * (3 : Rat) + 0, 0 * (3 : Rat) + 0))
      = some ((3 : Rat), (3 : Rat), (0 : Rat))
    norm_num

/-- C8 (counterexample): a recipe with no `useFrames` and no `blitImages`
but a declared `frame: 0` on a 2-frame source selects source frame `0` at
output index `1`, not the output index itself. -/
theorem plain_recipe_counterexample :
    ((regularizeOption (.mk none none none none none (some 0) none none) 2).get? 1).map
      (List.map RegularOpt.frame) = some [0] ∧ (0 : Int) ≠ 1 := by
  constructor
  · rw [regularizeOption_eqF 1 _ 2 (by decide)]
    decide
  · decide
